import Mathlib

/-!
Shallow embedding of the `rbxts-react` Lua adapter layer.

The repository's runtime behaviour lives in a small Lua adapter
(`createElement`, `ReactComponent`, `ReactPureComponent`) plus a static
tag table (`tags.lua`).  The sources contain three variants of the
`createElement` adapter:

* the current adapter (`src/unnamed/part_002`, lines 48-75), where both the
  tag-table lookup and the `Change`/`Event`/`Tag` prop rewriting are guarded
  by `type(component) == "string"`;
* the variant appended inside `src/packages/react/src/tags.lua`
  (lines 331-356), where the tag lookup is unconditional and the rewriting is
  guarded by `props and type(component) == "string"`;
* the variant in `src/packages/react/src/init.lua` (lines 8-33), where the
  tag lookup is unconditional and the rewriting is guarded only by
  `if props then` (no string check).

All three are embedded below (`createElement`, `createElementTagsDoc`,
`createElementInitLua`).  Lua tables are modelled as association lists with
distinct keys; the opaque key objects `React.Change[k]`, `React.Event[k]`
and `React.Tag` of the underlying runtime are modelled by the dedicated
key constructors `LKey.chg`, `LKey.evt` and `LKey.tagKey` (in `react-lua`
these key objects are memoised per inner key, so deciding their equality by
the inner key is faithful).  The underlying `React.createElement` delegate is
opaque; the observable outcome of an adapter call is therefore the
`DelegateCall` record it hands to the delegate, or a Lua error raised by the
adapter itself before delegating.
-/

namespace RbxtsReact

/-- Lua values usable as table keys in the adapter's prop bags and class
tables.  `chg k`, `evt k`, `tagKey` model the opaque runtime key objects
`React.Change[k]`, `React.Event[k]`, `React.Tag`; `refKey` models an opaque
reference (a function or table used as a key). -/
inductive LKey where
  | str (s : String)
  | num (n : Int)
  | boolKey (b : Bool)
  | refKey (n : Nat)
  | chg (k : LKey)
  | evt (k : LKey)
  | tagKey
deriving DecidableEq, Repr

/-- Lua values stored in prop bags and class tables.  `fnRef` is an opaque
function reference; `table` is a Lua table written as an association list. -/
inductive LVal where
  | boolV (b : Bool)
  | num (n : Int)
  | str (s : String)
  | fnRef (n : Nat)
  | table (entries : List (LKey × LVal))

/-- A Lua table with `LKey` keys, e.g. a prop bag.  Keys are distinct in any
table produced by Lua; theorems that need this state it as a hypothesis. -/
abbrev Props := List (LKey × LVal)

/-- Lua table read `t[k]`: the unique binding of `k`, or `nil` (`none`).
On association lists with distinct keys the first match is that binding. -/
def lookupA {κ β : Type} [DecidableEq κ] : List (κ × β) → κ → Option β
  | [], _ => none
  | (k0, v0) :: rest, k => if k = k0 then some v0 else lookupA rest k

/-- Lua table write `t[k] = v` with `v` non-nil: replaces the binding of `k`
if present, otherwise adds one. -/
def setK {κ β : Type} [DecidableEq κ] : List (κ × β) → κ → β → List (κ × β)
  | [], k, v => [(k, v)]
  | (k0, v0) :: rest, k, v =>
    if k = k0 then (k0, v) :: rest else (k0, v0) :: setK rest k v

/-- Lua table write `t[k] = nil`: removes the binding of `k`. -/
def removeK {κ β : Type} [DecidableEq κ] : List (κ × β) → κ → List (κ × β)
  | [], _ => []
  | (k0, v0) :: rest, k =>
    if k = k0 then removeK rest k else (k0, v0) :: removeK rest k

/-- The `for key, value in m do props[mk key] = value end` loop of the
adapter: each entry of the nested mapping `m` is written to the bag under
the runtime key `mk key`.  (Lua's iteration order over a table is
unspecified; since `mk` is injective and `m` has distinct keys, the written
keys are distinct and the resulting table does not depend on the order.) -/
def moveEntries (mk : LKey → LKey) : Props → List (LKey × LVal) → Props
  | ps, [] => ps
  | ps, (k, v) :: rest => moveEntries mk (setK ps (mk k) v) rest

/-- The static `classNames` list of `src/packages/react/src/tags.lua`
(lines 1-273), verbatim. -/
def classNames : List String := [
  "Accessory",
  "AccessoryDescription",
  "Accoutrement",
  "Actor",
  "AdGui",
  "AdPortal",
  "AirController",
  "AlignOrientation",
  "AlignPosition",
  "AngularVelocity",
  "Animation",
  "AnimationConstraint",
  "AnimationController",
  "AnimationRigData",
  "Animator",
  "ArcHandles",
  "Atmosphere",
  "Attachment",
  "AudioAnalyzer",
  "AudioChorus",
  "AudioCompressor",
  "AudioDeviceInput",
  "AudioDeviceOutput",
  "AudioDistortion",
  "AudioEcho",
  "AudioEmitter",
  "AudioEqualizer",
  "AudioFader",
  "AudioFlanger",
  "AudioListener",
  "AudioPitchShifter",
  "AudioPlayer",
  "AudioReverb",
  "AudioSearchParams",
  "Backpack",
  "BallSocketConstraint",
  "Beam",
  "BillboardGui",
  "BindableEvent",
  "BindableFunction",
  "BlockMesh",
  "BloomEffect",
  "BlurEffect",
  "BodyAngularVelocity",
  "BodyColors",
  "BodyForce",
  "BodyGyro",
  "BodyPartDescription",
  "BodyPosition",
  "BodyThrust",
  "BodyVelocity",
  "Bone",
  "BoolValue",
  "BoxHandleAdornment",
  "Breakpoint",
  "BrickColorValue",
  "BubbleChatMessageProperties",
  "BuoyancySensor",
  "Camera",
  "CanvasGroup",
  "CFrameValue",
  "CharacterMesh",
  "ChorusSoundEffect",
  "ClickDetector",
  "ClimbController",
  "Clouds",
  "Color3Value",
  "ColorCorrectionEffect",
  "CompressorSoundEffect",
  "ConeHandleAdornment",
  "Configuration",
  "ControllerManager",
  "ControllerPartSensor",
  "CornerWedgePart",
  "CurveAnimation",
  "CylinderHandleAdornment",
  "CylinderMesh",
  "CylindricalConstraint",
  "DataStoreGetOptions",
  "DataStoreIncrementOptions",
  "DataStoreOptions",
  "DataStoreSetOptions",
  "Decal",
  "DepthOfFieldEffect",
  "Dialog",
  "DialogChoice",
  "DistortionSoundEffect",
  "DoubleConstrainedValue",
  "DragDetector",
  "Dragger",
  "EchoSoundEffect",
  "EditableImage",
  "EditableMesh",
  "EqualizerSoundEffect",
  "EulerRotationCurve",
  "ExperienceInviteOptions",
  "Explosion",
  "FaceControls",
  "FileMesh",
  "Fire",
  "FlangeSoundEffect",
  "FloatCurve",
  "FloorWire",
  "Folder",
  "ForceField",
  "Frame",
  "GetTextBoundsParams",
  "Glue",
  "GroundController",
  "Handles",
  "Hat",
  "HiddenSurfaceRemovalAsset",
  "Highlight",
  "HingeConstraint",
  "Hole",
  "Humanoid",
  "HumanoidController",
  "HumanoidDescription",
  "IKControl",
  "ImageButton",
  "ImageHandleAdornment",
  "ImageLabel",
  "IntConstrainedValue",
  "InternalSyncItem",
  "IntersectOperation",
  "IntValue",
  "Keyframe",
  "KeyframeMarker",
  "KeyframeSequence",
  "LinearVelocity",
  "LineForce",
  "LineHandleAdornment",
  "LocalizationTable",
  "LocalScript",
  "ManualGlue",
  "ManualWeld",
  "MarkerCurve",
  "MaterialVariant",
  "MeshPart",
  "Model",
  "ModuleScript",
  "Motor",
  "Motor6D",
  "MotorFeature",
  "NegateOperation",
  "NoCollisionConstraint",
  "NumberPose",
  "NumberValue",
  "ObjectValue",
  "OperationGraph",
  "Pants",
  "Part",
  "ParticleEmitter",
  "PartOperation",
  "Path2D",
  "PathfindingLink",
  "PathfindingModifier",
  "PitchShiftSoundEffect",
  "Plane",
  "PlaneConstraint",
  "PluginCapabilities",
  "PointLight",
  "Pose",
  "PrismaticConstraint",
  "ProximityPrompt",
  "RayValue",
  "RemoteEvent",
  "RemoteFunction",
  "ReverbSoundEffect",
  "RigidConstraint",
  "RobloxEditableImage",
  "RocketPropulsion",
  "RodConstraint",
  "RopeConstraint",
  "Rotate",
  "RotateP",
  "RotateV",
  "RotationCurve",
  "ScreenGui",
  "Script",
  "ScrollingFrame",
  "Seat",
  "SelectionBox",
  "SelectionPartLasso",
  "SelectionPointLasso",
  "SelectionSphere",
  "Shirt",
  "ShirtGraphic",
  "SkateboardController",
  "SkateboardPlatform",
  "Sky",
  "Smoke",
  "Snap",
  "Sound",
  "SoundGroup",
  "Sparkles",
  "SpawnLocation",
  "SpecialMesh",
  "SphereHandleAdornment",
  "SpotLight",
  "SpringConstraint",
  "StarterGear",
  "StringValue",
  "StudioAttachment",
  "StudioCallout",
  "StyleDerive",
  "StyleLink",
  "StyleRule",
  "StyleSheet",
  "SunRaysEffect",
  "SurfaceAppearance",
  "SurfaceGui",
  "SurfaceLight",
  "SurfaceSelection",
  "SwimController",
  "Team",
  "TeleportOptions",
  "TerrainDetail",
  "TerrainRegion",
  "TextBox",
  "TextButton",
  "TextChannel",
  "TextChatCommand",
  "TextChatMessageProperties",
  "TextLabel",
  "Texture",
  "Tool",
  "Torque",
  "TorsionSpringConstraint",
  "TrackerStreamAnimation",
  "Trail",
  "TremoloSoundEffect",
  "TrussPart",
  "UIAspectRatioConstraint",
  "UICorner",
  "UIDragDetector",
  "UIFlexItem",
  "UIGradient",
  "UIGridLayout",
  "UIListLayout",
  "UIPadding",
  "UIPageLayout",
  "UIScale",
  "UISizeConstraint",
  "UIStroke",
  "UITableLayout",
  "UITextSizeConstraint",
  "UnionOperation",
  "UniversalConstraint",
  "UnreliableRemoteEvent",
  "UserNotification",
  "UserNotificationPayload",
  "UserNotificationPayloadAnalyticsData",
  "UserNotificationPayloadJoinExperience",
  "UserNotificationPayloadParameterValue",
  "Vector3Curve",
  "Vector3Value",
  "VectorForce",
  "VehicleController",
  "VehicleSeat",
  "VelocityMotor",
  "VideoFrame",
  "ViewportFrame",
  "WedgePart",
  "Weld",
  "WeldConstraint",
  "Wire",
  "WireframeHandleAdornment",
  "WorldModel",
  "WrapLayer",
  "WrapTarget"]

/-- Lua `string.lower`: lower-cases every character.  The class names are pure
ASCII, on which Lua's `string.lower` and `Char.toLower` agree. -/
def lowerName (s : String) : String := String.mk (s.data.map Char.toLower)

/-- The Tag Table of `tags.lua` (lines 275-279):
`for _, className in classNames do tags[string.lower(className)] = className end`. -/
def tags : List (String × String) := classNames.map (fun c => (lowerName c, c))

/-- The table read `tags[component]` for a string `component`. -/
def tagsLookup (s : String) : Option String := lookupA tags s

/-- Line 50 of `part_002`, `component = tags[component] or component`:
`tags[component]` is either
`nil` or a (truthy) string, so `or` yields the looked-up name when the key is
present and the original string otherwise. -/
def resolveTag (s : String) : String := (tagsLookup s).getD s

/-- The `component` argument of `createElement`: a string tag or an opaque
component reference (a function or class component). -/
inductive ElementType where
  | str (s : String)
  | compRef (n : Nat)
deriving DecidableEq, Repr

/-- The reassignment `component = tags[component] or component` on an
arbitrary `component`
(the unconditional first line of the `init.lua` and `tags.lua` variants):
indexing `tags` with a non-string key yields `nil`, so a component reference
passes through. -/
def resolveElement : ElementType → ElementType
  | .str s => .str (resolveTag s)
  | c => c

/-- A Lua error raised by the adapter itself.  `iterNonTable` is the Luau
runtime error raised by `for key, value in x do` when `x` is not iterable
(e.g. a number, string or boolean; an opaque function value would instead be
invoked as an iterator, a case the theorems below never rely on). -/
inductive LErr where
  | iterNonTable
deriving DecidableEq, Repr

/-- The arguments of the single delegating call
`React.createElement(component, props, ...)` — the caller-visible outcome of
the adapter when it does not raise. -/
structure DelegateCall where
  elementType : ElementType
  propsArg : Option Props
  childrenArg : List LVal

/-- Lines 53-58 of `part_002` (`if props.Change then for key, value in
props.Change do props[React.Change[key]] = value end; props.Change = nil
end`): skipped when `Change` is absent or falsy; when it is a table its
entries are moved under the `React.Change[key]` key objects and the `Change`
binding is removed; iterating any other truthy value raises. -/
def applyChange (ps : Props) : Except LErr Props :=
  match lookupA ps (.str "Change") with
  | none => .ok ps
  | some (.boolV false) => .ok ps
  | some (.table es) =>
    .ok (removeK (moveEntries LKey.chg ps es) (.str "Change"))
  | some _ => .error .iterNonTable

/-- Lines 60-65 of `part_002`: the same rewriting for `Event`, with the
`React.Event[key]` key objects. -/
def applyEvent (ps : Props) : Except LErr Props :=
  match lookupA ps (.str "Event") with
  | none => .ok ps
  | some (.boolV false) => .ok ps
  | some (.table es) =>
    .ok (removeK (moveEntries LKey.evt ps es) (.str "Event"))
  | some _ => .error .iterNonTable

/-- Lines 67-70 of `part_002` (`if props.Tag then props[React.Tag] =
props.Tag; props.Tag = nil end`): a truthy `Tag` value of any shape is moved
under the single `React.Tag` key. -/
def applyTag (ps : Props) : Props :=
  match lookupA ps (.str "Tag") with
  | none => ps
  | some (.boolV false) => ps
  | some v => removeK (setK ps .tagKey v) (.str "Tag")

/-- The whole `Change`/`Event`/`Tag` rewriting performed on a present prop
bag, in source order: `Change`, then `Event`, then `Tag`. -/
def rewriteProps (ps : Props) : Except LErr Props :=
  match applyChange ps with
  | .error e => .error e
  | .ok ps1 =>
    match applyEvent ps1 with
    | .error e => .error e
    | .ok ps2 => .ok (applyTag ps2)

/-- The function `exports.createElement` of `src/unnamed/part_002`
(lines 48-75), the
current adapter: both the tag lookup and the prop rewriting happen only under
`type(component) == "string"`, and the rewriting only when a prop bag is
present.  The result is the delegate call `React.createElement(component,
props, ...)`, or the adapter's own error. -/
def createElement (c : ElementType) (props : Option Props)
    (children : List LVal) : Except LErr DelegateCall :=
  match c with
  | .str s =>
    match props with
    | some ps =>
      match rewriteProps ps with
      | .error e => .error e
      | .ok qs => .ok ⟨.str (resolveTag s), some qs, children⟩
    | none => .ok ⟨.str (resolveTag s), none, children⟩
  | .compRef n => .ok ⟨.compRef n, props, children⟩

/-- The function `exports.createElement` of
`src/packages/react/src/init.lua`
(lines 8-33): the tag lookup is unconditional and the rewriting is guarded
only by `if props then` — it also runs when `component` is a component
reference. -/
def createElementInitLua (c : ElementType) (props : Option Props)
    (children : List LVal) : Except LErr DelegateCall :=
  match props with
  | some ps =>
    match rewriteProps ps with
    | .error e => .error e
    | .ok qs => .ok ⟨resolveElement c, some qs, children⟩
  | none => .ok ⟨resolveElement c, none, children⟩

/-- The `exports.createElement` variant appended in
`src/packages/react/src/tags.lua` (lines 331-356): unconditional tag lookup,
rewriting guarded by `props and type(component) == "string"` (checked after
the reassignment, which maps strings to strings). -/
def createElementTagsDoc (c : ElementType) (props : Option Props)
    (children : List LVal) : Except LErr DelegateCall :=
  match props, resolveElement c with
  | some ps, .str s =>
    match rewriteProps ps with
    | .error e => .error e
    | .ok qs => .ok ⟨.str s, some qs, children⟩
  | _, _ => .ok ⟨resolveElement c, props, children⟩

/-- A delegate that never raises, used to exhibit an error that can only
come from the adapter itself. -/
def okDelegate : DelegateCall → Except LErr LVal :=
  fun _ => .ok (.num 0)

/-- The final `return React.createElement(component, props, ...)` behind an
abstract
delegate: the adapter's rewriting runs first (and may raise), then the
delegate's result — value or error — is returned unchanged. -/
def runAdapter (delegate : DelegateCall → Except LErr LVal)
    (c : ElementType) (props : Option Props) (children : List LVal) :
    Except LErr LVal :=
  match createElement c props children with
  | .error e => .error e
  | .ok call => delegate call

/-- A Lua object as passed to `ReactComponent`: an optional (opaque)
metatable and its own fields. -/
structure LuaObject where
  meta : Option Nat
  fields : Props

/-- The `if key == "constructor" then key = "init" end` renaming of the
member-copy loop. -/
def renameMember (k : LKey) : LKey :=
  if k = .str "constructor" then .str "init" else k

/-- The member-copy loop of `ReactComponent`/`ReactPureComponent`
(lines 12-22 of `part_002`): every own entry of the class is written onto
the extended class, except `__index`, with `constructor` renamed to `init`.
(Lua's iteration order is unspecified; the theorems below only use
configurations where the written keys are distinct, making the resulting
table order-independent.) -/
def copyMembers : Props → Props → Props
  | acc, [] => acc
  | acc, (k, v) :: rest =>
    if k = .str "__index" then copyMembers acc rest
    else copyMembers (setK acc (renameMember k) v) rest

/-- The function `exports.ReactComponent` (lines 8-25 of `part_002`): builds
`exports.Component:extend(tostring(class))` — an opaque call into the
underlying runtime whose resulting own members are the parameter `base` —
then strips the metatable of the argument (`setmetatable(class, nil)`) and
copies the members.  Returns the new component class's members together with
the post-call state of the argument object. -/
def ReactComponent (base : Props) (cls : LuaObject) : Props × LuaObject :=
  (copyMembers base cls.fields, { meta := none, fields := cls.fields })

/-- The function `exports.ReactPureComponent` (lines 29-46 of `part_002`):
identical to
`ReactComponent` except that the extended base is
`exports.PureComponent`, again abstracted by the `base` parameter. -/
def ReactPureComponent (base : Props) (cls : LuaObject) : Props × LuaObject :=
  (copyMembers base cls.fields, { meta := none, fields := cls.fields })

/-- Keys owned by the underlying runtime's signal/tag namespaces — the
possible targets of the rewriting. -/
def isSignalKey : LKey → Bool
  | .chg _ => true
  | .evt _ => true
  | .tagKey => true
  | _ => false

/-- A binding that the `if props.X then ... end` guards either skip or
iterate without error: absent, falsy, or a table. -/
def tableOrFalsy : Option LVal → Prop
  | none => True
  | some (.boolV false) => True
  | some (.table _) => True
  | some _ => False

/-- A prop bag whose `Change` and `Event` entries (when present and truthy)
are tables, as the adapter's iteration requires. -/
def WFbag (ps : Props) : Prop :=
  tableOrFalsy (lookupA ps (.str "Change")) ∧
    tableOrFalsy (lookupA ps (.str "Event"))

/-- The optional-bag version of `WFbag`. -/
def WFopt : Option Props → Prop
  | none => True
  | some ps => WFbag ps

/-- A binding on which the `if props.X then` guard is false: absent or the
value `false`. -/
def falsyOpt (o : Option LVal) : Prop :=
  o = none ∨ o = some (.boolV false)

theorem lookupA_setK_self {κ β : Type} [DecidableEq κ]
    (l : List (κ × β)) (k : κ) (v : β) : lookupA (setK l k v) k = some v := by
  induction l with
  | nil => simp [setK, lookupA]
  | cons hd tl ih =>
    obtain ⟨k0, v0⟩ := hd
    by_cases h : k = k0
    · simp [setK, h, lookupA]
    · simp [setK, h, lookupA, ih]

theorem lookupA_setK_ne {κ β : Type} [DecidableEq κ]
    (l : List (κ × β)) (k : κ) (v : β) (j : κ) (h : j ≠ k) :
    lookupA (setK l k v) j = lookupA l j := by
  induction l with
  | nil => simp [setK, lookupA, h]
  | cons hd tl ih =>
    obtain ⟨k0, v0⟩ := hd
    by_cases h0 : k = k0
    · subst h0
      simp [setK, lookupA, h]
    · by_cases h1 : j = k0
      · simp [setK, h0, lookupA, h1]
      · simp [setK, h0, lookupA, h1, ih]

theorem lookupA_removeK_self {κ β : Type} [DecidableEq κ]
    (l : List (κ × β)) (k : κ) : lookupA (removeK l k) k = none := by
  induction l with
  | nil => simp [removeK, lookupA]
  | cons hd tl ih =>
    obtain ⟨k0, v0⟩ := hd
    by_cases h : k = k0
    · subst h
      simp [removeK, ih]
    · simp [removeK, h, lookupA, ih]

theorem lookupA_removeK_ne {κ β : Type} [DecidableEq κ]
    (l : List (κ × β)) (k : κ) (j : κ) (h : j ≠ k) :
    lookupA (removeK l k) j = lookupA l j := by
  induction l with
  | nil => simp [removeK]
  | cons hd tl ih =>
    obtain ⟨k0, v0⟩ := hd
    by_cases h0 : k = k0
    · subst h0
      simp [removeK, lookupA, h, ih]
    · by_cases h1 : j = k0
      · simp [removeK, h0, lookupA, h1]
      · simp [removeK, h0, lookupA, h1, ih]

theorem lookupA_moveEntries_ne (mk : LKey → LKey)
    (es : List (LKey × LVal)) (ps : Props) (j : LKey)
    (h : ∀ e ∈ es, mk e.1 ≠ j) :
    lookupA (moveEntries mk ps es) j = lookupA ps j := by
  induction es generalizing ps with
  | nil => simp [moveEntries]
  | cons hd tl ih =>
    obtain ⟨k0, v0⟩ := hd
    have hhd : mk k0 ≠ j := h (k0, v0) (List.mem_cons_self _ _)
    have htl : ∀ e ∈ tl, mk e.1 ≠ j := fun e he => h e (List.mem_cons_of_mem _ he)
    simp only [moveEntries]
    rw [ih _ htl, lookupA_setK_ne _ _ _ _ (fun hj => hhd hj.symm)]

theorem lookupA_eq_some_of_mem_nodup {κ β : Type} [DecidableEq κ]
    (l : List (κ × β)) (k : κ) (v : β)
    (hnd : (l.map Prod.fst).Nodup) (hmem : (k, v) ∈ l) :
    lookupA l k = some v := by
  induction l with
  | nil => cases hmem
  | cons hd tl ih =>
    obtain ⟨k0, v0⟩ := hd
    simp only [List.map_cons, List.nodup_cons] at hnd
    rcases List.mem_cons.mp hmem with heq | htl
    · cases heq
      simp [lookupA]
    · have hk0 : k ≠ k0 := by
        intro h
        subst h
        exact hnd.1 (List.mem_map.mpr ⟨(k, v), htl, rfl⟩)
      simp [lookupA, hk0, ih hnd.2 htl]

/-- Two bindings of the same key in a distinct-key table agree. -/
theorem mem_value_eq_of_nodup {κ β : Type} [DecidableEq κ]
    (l : List (κ × β)) (k : κ) (v w : β)
    (hnd : (l.map Prod.fst).Nodup) (hv : (k, v) ∈ l) (hw : (k, w) ∈ l) :
    v = w := by
  have h1 := lookupA_eq_some_of_mem_nodup l k v hnd hv
  have h2 := lookupA_eq_some_of_mem_nodup l k w hnd hw
  rw [h1] at h2
  exact Option.some.inj h2

set_option maxRecDepth 40000 in
/-- The lowered class-name list is duplicate-free (it is in fact strictly
sorted), so the Tag Table is a genuine map. -/
theorem lowered_classNames_nodup : (classNames.map lowerName).Nodup := by
  decide

theorem tags_keys_eq : tags.map Prod.fst = classNames.map lowerName := by
  simp [tags]

theorem tags_keys_nodup : (tags.map Prod.fst).Nodup := by
  rw [tags_keys_eq]
  exact lowered_classNames_nodup

theorem tagsLookup_lowered (c : String) (hc : c ∈ classNames) :
    tagsLookup (lowerName c) = some c :=
  lookupA_eq_some_of_mem_nodup tags (lowerName c) c tags_keys_nodup
    (List.mem_map.mpr ⟨c, hc, rfl⟩)

theorem applyChange_preserve (ps qs : Props) (k : LKey)
    (h : applyChange ps = .ok qs)
    (h1 : ∀ e, k ≠ LKey.chg e) (h2 : k ≠ .str "Change") :
    lookupA qs k = lookupA ps k := by
  unfold applyChange at h
  split at h
  · cases h
    rfl
  · cases h
    rfl
  · cases h
    rename_i es heq
    rw [lookupA_removeK_ne _ _ _ h2,
      lookupA_moveEntries_ne _ es _ _ (fun e _ he => h1 e.1 he.symm)]
  · cases h

theorem applyEvent_preserve (ps qs : Props) (k : LKey)
    (h : applyEvent ps = .ok qs)
    (h1 : ∀ e, k ≠ LKey.evt e) (h2 : k ≠ .str "Event") :
    lookupA qs k = lookupA ps k := by
  unfold applyEvent at h
  split at h
  · cases h
    rfl
  · cases h
    rfl
  · cases h
    rename_i es heq
    rw [lookupA_removeK_ne _ _ _ h2,
      lookupA_moveEntries_ne _ es _ _ (fun e _ he => h1 e.1 he.symm)]
  · cases h

theorem applyTag_preserve (ps : Props) (k : LKey)
    (h1 : k ≠ LKey.tagKey) (h2 : k ≠ .str "Tag") :
    lookupA (applyTag ps) k = lookupA ps k := by
  unfold applyTag
  split
  · rfl
  · rfl
  · rw [lookupA_removeK_ne _ _ _ h2, lookupA_setK_ne _ _ _ _ h1]

theorem applyChange_ok_falsy (ps qs : Props) (h : applyChange ps = .ok qs) :
    falsyOpt (lookupA qs (.str "Change")) := by
  unfold applyChange at h
  split at h
  · cases h
    rename_i heq
    exact Or.inl heq
  · cases h
    rename_i heq
    exact Or.inr heq
  · cases h
    exact Or.inl (lookupA_removeK_self _ _)
  · cases h

theorem applyEvent_ok_falsy (ps qs : Props) (h : applyEvent ps = .ok qs) :
    falsyOpt (lookupA qs (.str "Event")) := by
  unfold applyEvent at h
  split at h
  · cases h
    rename_i heq
    exact Or.inl heq
  · cases h
    rename_i heq
    exact Or.inr heq
  · cases h
    exact Or.inl (lookupA_removeK_self _ _)
  · cases h

theorem applyTag_falsy (ps : Props) :
    falsyOpt (lookupA (applyTag ps) (.str "Tag")) := by
  unfold applyTag
  split
  · rename_i heq
    exact Or.inl heq
  · rename_i heq
    exact Or.inr heq
  · exact Or.inl (lookupA_removeK_self _ _)

theorem applyChange_skip (ps : Props)
    (h : falsyOpt (lookupA ps (.str "Change"))) : applyChange ps = .ok ps := by
  unfold applyChange
  rcases h with h | h <;> rw [h]

theorem applyEvent_skip (ps : Props)
    (h : falsyOpt (lookupA ps (.str "Event"))) : applyEvent ps = .ok ps := by
  unfold applyEvent
  rcases h with h | h <;> rw [h]

theorem applyTag_skip (ps : Props)
    (h : falsyOpt (lookupA ps (.str "Tag"))) : applyTag ps = ps := by
  unfold applyTag
  rcases h with h | h <;> rw [h]

theorem applyChange_ok_of_WF (ps : Props)
    (h : tableOrFalsy (lookupA ps (.str "Change"))) :
    ∃ qs, applyChange ps = .ok qs := by
  unfold applyChange
  cases hc : lookupA ps (.str "Change") with
  | none => exact ⟨ps, rfl⟩
  | some v =>
    rw [hc] at h
    cases v with
    | boolV b =>
      cases b
      · exact ⟨ps, rfl⟩
      · exact h.elim
    | table es => exact ⟨_, rfl⟩
    | num n => exact h.elim
    | str s => exact h.elim
    | fnRef n => exact h.elim

theorem applyEvent_ok_of_WF (ps : Props)
    (h : tableOrFalsy (lookupA ps (.str "Event"))) :
    ∃ qs, applyEvent ps = .ok qs := by
  unfold applyEvent
  cases hc : lookupA ps (.str "Event") with
  | none => exact ⟨ps, rfl⟩
  | some v =>
    rw [hc] at h
    cases v with
    | boolV b =>
      cases b
      · exact ⟨ps, rfl⟩
      · exact h.elim
    | table es => exact ⟨_, rfl⟩
    | num n => exact h.elim
    | str s => exact h.elim
    | fnRef n => exact h.elim

theorem rewriteProps_eq (ps q1 q2 : Props)
    (h1 : applyChange ps = .ok q1) (h2 : applyEvent q1 = .ok q2) :
    rewriteProps ps = .ok (applyTag q2) := by
  simp only [rewriteProps, h1, h2]

theorem renameMember_ne (a b : LKey) (hab : a ≠ b)
    (ha : a ≠ .str "init") (hb : b ≠ .str "init") :
    renameMember a ≠ renameMember b := by
  unfold renameMember
  by_cases h1 : a = LKey.str "constructor" <;>
    by_cases h2 : b = LKey.str "constructor"
  · exact absurd (h1.trans h2.symm) hab
  · rw [if_pos h1, if_neg h2]
    exact fun h => hb h.symm
  · rw [if_neg h1, if_pos h2]
    exact ha
  · rw [if_neg h1, if_neg h2]
    exact hab

theorem copyMembers_lookup_of_forall_ne (fs : Props) (acc : Props) (k : LKey)
    (h : ∀ e ∈ fs, e.1 ≠ LKey.str "__index" → renameMember e.1 ≠ k) :
    lookupA (copyMembers acc fs) k = lookupA acc k := by
  induction fs generalizing acc with
  | nil => rfl
  | cons hd tl ih =>
    obtain ⟨k0, v0⟩ := hd
    by_cases h0 : k0 = LKey.str "__index"
    · rw [show copyMembers acc ((k0, v0) :: tl) = copyMembers acc tl by
        simp [copyMembers, h0]]
      exact ih acc (fun e he => h e (List.mem_cons_of_mem _ he))
    · have hk : renameMember k0 ≠ k := h (k0, v0) (List.mem_cons_self _ _) h0
      rw [show copyMembers acc ((k0, v0) :: tl) =
          copyMembers (setK acc (renameMember k0) v0) tl by
        simp [copyMembers, h0]]
      rw [ih _ (fun e he => h e (List.mem_cons_of_mem _ he))]
      exact lookupA_setK_ne _ _ _ _ (fun hj => hk hj.symm)

theorem copyMembers_lookup_mem (fs : Props) (acc : Props) (k : LKey)
    (v : LVal) (hmem : (k, v) ∈ fs) (hki : k ≠ .str "__index")
    (hnd : (fs.map Prod.fst).Nodup)
    (hinit : LKey.str "init" ∉ fs.map Prod.fst) :
    lookupA (copyMembers acc fs) (renameMember k) = some v := by
  induction fs generalizing acc with
  | nil => cases hmem
  | cons hd tl ih =>
    obtain ⟨k0, v0⟩ := hd
    simp only [List.map_cons, List.nodup_cons] at hnd
    have hinit0 : LKey.str "init" ≠ k0 := by
      intro h
      exact hinit (by rw [List.map_cons, h]; exact List.mem_cons_self _ _)
    have hinitTl : LKey.str "init" ∉ tl.map Prod.fst := by
      intro h
      exact hinit (by rw [List.map_cons]; exact List.mem_cons_of_mem _ h)
    rcases List.mem_cons.mp hmem with heq | htl
    · cases heq
      rw [show copyMembers acc ((k, v) :: tl) =
          copyMembers (setK acc (renameMember k) v) tl by
        simp [copyMembers, hki]]
      rw [copyMembers_lookup_of_forall_ne tl _ (renameMember k) ?side]
      · exact lookupA_setK_self _ _ _
      case side =>
        intro e he _
        have hek : e.1 ≠ k := by
          intro h
          exact hnd.1 (h ▸ List.mem_map.mpr ⟨e, he, rfl⟩)
        have hei : e.1 ≠ LKey.str "init" := by
          intro h
          exact hinitTl (h ▸ List.mem_map.mpr ⟨e, he, rfl⟩)
        exact renameMember_ne e.1 k hek hei (fun h => hinit0 h.symm)
    · by_cases h0 : k0 = LKey.str "__index"
      · rw [show copyMembers acc ((k0, v0) :: tl) = copyMembers acc tl by
          simp [copyMembers, h0]]
        exact ih acc htl hnd.2 hinitTl
      · rw [show copyMembers acc ((k0, v0) :: tl) =
            copyMembers (setK acc (renameMember k0) v0) tl by
          simp [copyMembers, h0]]
        exact ih _ htl hnd.2 hinitTl

set_option maxRecDepth 40000 in
/-- C1: for every string argument that is a key of the Tag Table,
`createElement` hands the delegate the exact recorded canonical class name;
for every string that is not a key, the delegate receives the original
string unchanged — in particular `createElement` on "nonexistenttag"
delegates with the type "nonexistenttag". -/
theorem c1_tag_resolution (s : String) (popt : Option Props)
    (ch : List LVal) :
    (∀ call, createElement (.str s) popt ch = .ok call →
      call.elementType = .str (resolveTag s)) ∧
    (∀ c, tagsLookup s = some c → resolveTag s = c) ∧
    (tagsLookup s = none → resolveTag s = s) ∧
    createElement (.str "nonexistenttag") (some []) [] =
      .ok ⟨.str "nonexistenttag", some [], []⟩ := by
  refine ⟨?_, ?_, ?_, ?_⟩
  · intro call h
    cases popt with
    | none =>
      simp only [createElement] at h
      cases h
      rfl
    | some ps =>
      simp only [createElement] at h
      cases hr : rewriteProps ps with
      | error e =>
        simp only [hr] at h
        cases h
      | ok qs =>
        simp only [hr] at h
        cases h
        rfl
  · intro c h
    simp [resolveTag, h]
  · intro h
    simp [resolveTag, h]
  · rfl

set_option maxRecDepth 40000 in
/-- Witness for C1: at "frame" the table lookup succeeds and resolves to
"Frame"; at "nonexistenttag" it fails and the string passes through. -/
theorem c1_tag_resolution_witness :
    tagsLookup "frame" = some "Frame" ∧ resolveTag "frame" = "Frame" ∧
    tagsLookup "nonexistenttag" = none ∧
    resolveTag "nonexistenttag" = "nonexistenttag" :=
  ⟨rfl, (c1_tag_resolution "frame" none []).2.1 "Frame" rfl, rfl,
    (c1_tag_resolution "nonexistenttag" none []).2.2.1 rfl⟩

set_option maxRecDepth 40000 in
/-- C4 counterexample: the lookup is not case-insensitive on the input.
"FRAME" is not a key of the pre-lowered table, so `createElement` passes
"FRAME" through unchanged instead of replacing it with the canonical
"Frame", although the lower-case spelling "frame" is a key. -/
theorem c4_counterexample :
    tagsLookup "FRAME" = none ∧
    tagsLookup "frame" = some "Frame" ∧
    createElement (.str "FRAME") none [] = .ok ⟨.str "FRAME", none, []⟩ ∧
    "FRAME" ≠ "Frame" :=
  ⟨rfl, rfl, rfl, by decide⟩

/-- C4 amended: the lookup is an exact string match against the pre-lowered
table, so precisely the all-lower-case spelling of each class name resolves
to its canonical name; any other casing (such as "FRAME") is passed through
unchanged, as the counterexample shows. -/
theorem c4_amended_lowercase_only (c : String) (hc : c ∈ classNames) :
    tagsLookup (lowerName c) = some c ∧
    createElement (.str (lowerName c)) none [] = .ok ⟨.str c, none, []⟩ := by
  have h := tagsLookup_lowered c hc
  refine ⟨h, ?_⟩
  simp only [createElement]
  rw [show resolveTag (lowerName c) = c by simp [resolveTag, h]]

set_option maxRecDepth 40000 in
/-- Witness for the amended C4 at the class name "Frame". -/
theorem c4_amended_witness :
    "Frame" ∈ classNames ∧ tagsLookup (lowerName "Frame") = some "Frame" :=
  ⟨by decide, (c4_amended_lowercase_only "Frame" (by decide)).1⟩

/-- C9: every Tag Table entry's key is the lower-casing of its value, the
values are exactly the class names of the static list, the keys are
duplicate-free, and the mapping is injective on keys (two entries with equal
keys are equal).  The table is a single pure definition, built once from
`classNames` and never mutated. -/
theorem c9_tag_table_invariant :
    (∀ p, p ∈ tags → p.1 = lowerName p.2) ∧
    tags.map Prod.snd = classNames ∧
    (tags.map Prod.fst).Nodup ∧
    (∀ p q, p ∈ tags → q ∈ tags → p.1 = q.1 → p.2 = q.2) := by
  refine ⟨?_, ?_, tags_keys_nodup, ?_⟩
  · intro p hp
    obtain ⟨c, hc, rfl⟩ := List.mem_map.mp hp
    rfl
  · show (classNames.map (fun c => (lowerName c, c))).map Prod.snd = classNames
    rw [List.map_map,
      show (Prod.snd ∘ fun c : String => (lowerName c, c)) = id from rfl,
      List.map_id]
  · intro p q hp hq hpq
    obtain ⟨c, hc, rfl⟩ := List.mem_map.mp hp
    obtain ⟨d, hd, rfl⟩ := List.mem_map.mp hq
    have hkey : lowerName c = lowerName d := hpq
    have hq2 : (lowerName c, d) ∈ tags := by
      rw [hkey]
      exact hq
    exact mem_value_eq_of_nodup tags (lowerName c) c d tags_keys_nodup hp hq2

set_option maxRecDepth 40000 in
/-- Witness for C9 at the entry for "Frame". -/
theorem c9_tag_table_invariant_witness :
    ("frame", "Frame") ∈ tags ∧ "frame" = lowerName "Frame" :=
  ⟨by decide, c9_tag_table_invariant.1 ("frame", "Frame") (by decide)⟩

/-- C10: `ReactComponent` and `ReactPureComponent` mutate their argument:
after the call the passed class object's metatable is `nil` (its fields are
untouched), so an argument that had a metatable is not left unchanged. -/
theorem c10_argument_mutation (base : Props) (cls : LuaObject) :
    (ReactComponent base cls).2 = { meta := none, fields := cls.fields } ∧
    (ReactPureComponent base cls).2 = { meta := none, fields := cls.fields } ∧
    (∀ m, cls.meta = some m → (ReactComponent base cls).2 ≠ cls) := by
  refine ⟨rfl, rfl, ?_⟩
  intro m hm heq
  have h2 : (ReactComponent base cls).2.meta = cls.meta :=
    congrArg LuaObject.meta heq
  rw [hm] at h2
  simp [ReactComponent] at h2

/-- Witness for C10 at a class object carrying a metatable. -/
theorem c10_argument_mutation_witness :
    LuaObject.meta ⟨some 0, []⟩ = some 0 ∧
    (ReactComponent [] ⟨some 0, []⟩).2 ≠ ⟨some 0, []⟩ :=
  ⟨rfl, (c10_argument_mutation [] ⟨some 0, []⟩).2.2 0 rfl⟩

/-- C8: the class-upgrade functions (`ReactComponent`, and identically
`ReactPureComponent`) copy every own member of the class onto the freshly
extended base except the internal linkage key `__index`, installing the
conventional `constructor` member in the `init` slot — so a class with a
`constructor` and other members yields a component class holding those
members verbatim and `init` bound to the original constructor.  The
hypotheses state the decorator's convention: the class's keys are distinct
and it does not itself declare an `init` member. -/
theorem c8_class_upgrade (base : Props) (mt : Option Nat) (fs : Props)
    (f : LVal) (hnd : (fs.map Prod.fst).Nodup)
    (hctor : (LKey.str "constructor", f) ∈ fs)
    (hinit : LKey.str "init" ∉ fs.map Prod.fst) :
    lookupA (ReactComponent base ⟨mt, fs⟩).1 (.str "init") = some f ∧
    (∀ k v, (k, v) ∈ fs → k ≠ .str "__index" → k ≠ .str "constructor" →
      lookupA (ReactComponent base ⟨mt, fs⟩).1 k = some v) ∧
    lookupA (ReactComponent base ⟨mt, fs⟩).1 (.str "__index") =
      lookupA base (.str "__index") ∧
    lookupA (ReactPureComponent base ⟨mt, fs⟩).1 (.str "init") = some f ∧
    (∀ k v, (k, v) ∈ fs → k ≠ .str "__index" → k ≠ .str "constructor" →
      lookupA (ReactPureComponent base ⟨mt, fs⟩).1 k = some v) := by
  have hinitKey : lookupA (copyMembers base fs) (.str "init") = some f := by
    have h := copyMembers_lookup_mem fs base _ f hctor (by decide) hnd hinit
    rwa [show renameMember (LKey.str "constructor") = LKey.str "init"
      from rfl] at h
  have hgen : ∀ k v, (k, v) ∈ fs → k ≠ .str "__index" →
      k ≠ .str "constructor" → lookupA (copyMembers base fs) k = some v := by
    intro k v hm hki hkc
    have h := copyMembers_lookup_mem fs base k v hm hki hnd hinit
    rwa [show renameMember k = k by simp [renameMember, hkc]] at h
  have hidx : lookupA (copyMembers base fs) (.str "__index") =
      lookupA base (.str "__index") := by
    refine copyMembers_lookup_of_forall_ne fs base _ ?_
    intro e he hne
    unfold renameMember
    by_cases hc2 : e.1 = LKey.str "constructor"
    · rw [if_pos hc2]
      decide
    · rw [if_neg hc2]
      exact hne
  exact ⟨hinitKey, hgen, hidx, hinitKey, hgen⟩

/-- Witness for C8: a class with a constructor and two other members. -/
theorem c8_class_upgrade_witness :
    lookupA (ReactComponent [] ⟨some 1,
        [(LKey.str "constructor", LVal.fnRef 0),
          (LKey.str "render", LVal.fnRef 1),
          (LKey.str "componentDidMount", LVal.fnRef 2)]⟩).1
      (LKey.str "init") = some (LVal.fnRef 0) ∧
    lookupA (ReactComponent [] ⟨some 1,
        [(LKey.str "constructor", LVal.fnRef 0),
          (LKey.str "render", LVal.fnRef 1),
          (LKey.str "componentDidMount", LVal.fnRef 2)]⟩).1
      (LKey.str "render") = some (LVal.fnRef 1) ∧
    lookupA (ReactComponent [] ⟨some 1,
        [(LKey.str "constructor", LVal.fnRef 0),
          (LKey.str "render", LVal.fnRef 1),
          (LKey.str "componentDidMount", LVal.fnRef 2)]⟩).1
      (LKey.str "componentDidMount") = some (LVal.fnRef 2) := by
  have h := c8_class_upgrade [] (some 1)
    [(LKey.str "constructor", LVal.fnRef 0),
      (LKey.str "render", LVal.fnRef 1),
      (LKey.str "componentDidMount", LVal.fnRef 2)]
    (LVal.fnRef 0) (by decide) (List.mem_cons_self _ _) (by decide)
  exact ⟨h.1,
    h.2.1 _ _ (List.mem_cons_of_mem _ (List.mem_cons_self _ _))
      (by decide) (by decide),
    h.2.1 _ _ (List.mem_cons_of_mem _
        (List.mem_cons_of_mem _ (List.mem_cons_self _ _)))
      (by decide) (by decide)⟩

/-- C3 counterexample: in the `init.lua` variant the rewriting also runs
when the type is a component reference — the delegate receives a bag whose
`Event` entry has been consumed and moved, not the bag unmodified. -/
theorem c3_counterexample :
    createElementInitLua (.compRef 0)
      (some [(LKey.str "Event",
        LVal.table [(LKey.str "Activated", LVal.fnRef 7)])]) [] =
      .ok ⟨.compRef 0,
        some [(LKey.evt (LKey.str "Activated"), LVal.fnRef 7)], []⟩ ∧
    lookupA [(LKey.evt (LKey.str "Activated"), LVal.fnRef 7)]
      (LKey.str "Event") = none ∧
    lookupA [(LKey.str "Event",
        LVal.table [(LKey.str "Activated", LVal.fnRef 7)])]
      (LKey.str "Event") ≠ none :=
  ⟨rfl, rfl, fun h => Option.noConfusion h⟩

/-- C3 amended: in the `part_002` and `tags.lua` adapter variants the
rewriting happens exactly when a prop bag is present and the type is a
string, and component-reference calls pass the bag through untouched; the
`init.lua` variant instead rewrites whenever a prop bag is present, even for
component references, as the counterexample shows. -/
theorem c3_amended_rewrite_guard :
    (∀ n popt ch, createElement (.compRef n) popt ch =
      .ok ⟨.compRef n, popt, ch⟩) ∧
    (∀ n popt ch, createElementTagsDoc (.compRef n) popt ch =
      .ok ⟨.compRef n, popt, ch⟩) ∧
    (∀ c ps ch, createElementInitLua c (some ps) ch =
      (rewriteProps ps).map
        (fun qs => DelegateCall.mk (resolveElement c) (some qs) ch)) ∧
    (∀ s ps ch, createElement (.str s) (some ps) ch =
      (rewriteProps ps).map
        (fun qs => DelegateCall.mk (.str (resolveTag s)) (some qs) ch)) := by
  refine ⟨fun n popt ch => rfl, fun n popt ch => ?_, fun c ps ch => ?_,
    fun s ps ch => ?_⟩
  · cases popt <;> rfl
  · cases hr : rewriteProps ps <;>
      simp [createElementInitLua, hr, Except.map]
  · cases hr : rewriteProps ps <;>
      simp [createElement, hr, Except.map]

theorem rewriteProps_ok_inv (ps qs : Props) (h : rewriteProps ps = .ok qs) :
    ∃ q1 q2, applyChange ps = .ok q1 ∧ applyEvent q1 = .ok q2 ∧
      qs = applyTag q2 := by
  unfold rewriteProps at h
  split at h
  · cases h
  · rename_i ps1 hc
    split at h
    · cases h
    · rename_i ps2 he
      cases h
      exact ⟨ps1, ps2, hc, he, rfl⟩

set_option maxRecDepth 40000 in
/-- C2: for a bag whose `Change` entry is a one-entry mapping, the delegated
bag has no `Change` key, one entry under the change-signal key with the same
value, and everything else unchanged; analogous laws hold for `Event` and
`Tag`; and concretely, `createElement` on "frame" with an `Event` mapping
containing `Activated` delegates with type "Frame" and the bag rewritten
under the `Activated` event-signal key. -/
theorem c2_prop_rewriting :
    (∀ ps f, lookupA ps (.str "Change") =
        some (.table [(.str "Text", f)]) →
      lookupA ps (.str "Event") = none → lookupA ps (.str "Tag") = none →
      ∃ qs, rewriteProps ps = .ok qs ∧
        lookupA qs (.str "Change") = none ∧
        lookupA qs (.chg (.str "Text")) = some f ∧
        (∀ k, k ≠ .str "Change" → k ≠ .chg (.str "Text") →
          lookupA qs k = lookupA ps k)) ∧
    (∀ ps f ekey, lookupA ps (.str "Event") =
        some (.table [(ekey, f)]) →
      lookupA ps (.str "Change") = none → lookupA ps (.str "Tag") = none →
      ∃ qs, rewriteProps ps = .ok qs ∧
        lookupA qs (.str "Event") = none ∧
        lookupA qs (.evt ekey) = some f ∧
        (∀ k, k ≠ .str "Event" → k ≠ .evt ekey →
          lookupA qs k = lookupA ps k)) ∧
    (∀ ps v, lookupA ps (.str "Tag") = some v → v ≠ .boolV false →
      lookupA ps (.str "Change") = none → lookupA ps (.str "Event") = none →
      ∃ qs, rewriteProps ps = .ok qs ∧
        lookupA qs (.str "Tag") = none ∧
        lookupA qs .tagKey = some v ∧
        (∀ k, k ≠ .str "Tag" → k ≠ .tagKey →
          lookupA qs k = lookupA ps k)) ∧
    createElement (.str "frame")
      (some [(.str "Event", .table [(.str "Activated", .fnRef 0)])]) [] =
      .ok ⟨.str "Frame",
        some [(.evt (.str "Activated"), .fnRef 0)], []⟩ := by
  refine ⟨?_, ?_, ?_, rfl⟩
  · intro ps f hC hE hT
    refine ⟨removeK (setK ps (.chg (.str "Text")) f) (.str "Change"),
      ?_, ?_, ?_, ?_⟩
    · have h1 : applyChange ps =
          .ok (removeK (setK ps (.chg (.str "Text")) f) (.str "Change")) := by
        simp only [applyChange, hC, moveEntries]
      have hE1 : lookupA (removeK (setK ps (.chg (.str "Text")) f)
          (.str "Change")) (.str "Event") = none := by
        rw [lookupA_removeK_ne _ _ _ (by decide),
          lookupA_setK_ne _ _ _ _ (by decide)]
        exact hE
      have h2 := applyEvent_skip _ (Or.inl hE1)
      have hT1 : lookupA (removeK (setK ps (.chg (.str "Text")) f)
          (.str "Change")) (.str "Tag") = none := by
        rw [lookupA_removeK_ne _ _ _ (by decide),
          lookupA_setK_ne _ _ _ _ (by decide)]
        exact hT
      have h3 := applyTag_skip _ (Or.inl hT1)
      have h4 := rewriteProps_eq ps _ _ h1 h2
      rwa [h3] at h4
    · exact lookupA_removeK_self _ _
    · rw [lookupA_removeK_ne _ _ _ (by decide)]
      exact lookupA_setK_self _ _ _
    · intro k hk1 hk2
      rw [lookupA_removeK_ne _ _ _ hk1, lookupA_setK_ne _ _ _ _ hk2]
  · intro ps f ekey hE hC hT
    refine ⟨removeK (setK ps (.evt ekey) f) (.str "Event"),
      ?_, ?_, ?_, ?_⟩
    · have h1 := applyChange_skip ps (Or.inl hC)
      have h2 : applyEvent ps =
          .ok (removeK (setK ps (.evt ekey) f) (.str "Event")) := by
        simp only [applyEvent, hE, moveEntries]
      have hT1 : lookupA (removeK (setK ps (.evt ekey) f)
          (.str "Event")) (.str "Tag") = none := by
        rw [lookupA_removeK_ne _ _ _ (by decide),
          lookupA_setK_ne _ _ _ _ (fun h => LKey.noConfusion h)]
        exact hT
      have h3 := applyTag_skip _ (Or.inl hT1)
      have h4 := rewriteProps_eq ps _ _ h1 h2
      rwa [h3] at h4
    · exact lookupA_removeK_self _ _
    · rw [lookupA_removeK_ne _ _ _ (fun h => LKey.noConfusion h)]
      exact lookupA_setK_self _ _ _
    · intro k hk1 hk2
      rw [lookupA_removeK_ne _ _ _ hk1, lookupA_setK_ne _ _ _ _ hk2]
  · intro ps v hT hv hC hE
    refine ⟨removeK (setK ps .tagKey v) (.str "Tag"), ?_, ?_, ?_, ?_⟩
    · have h1 := applyChange_skip ps (Or.inl hC)
      have h2 := applyEvent_skip ps (Or.inl hE)
      have h3 : applyTag ps = removeK (setK ps .tagKey v) (.str "Tag") := by
        simp only [applyTag, hT]
      have h4 := rewriteProps_eq ps _ _ h1 h2
      rwa [h3] at h4
    · exact lookupA_removeK_self _ _
    · rw [lookupA_removeK_ne _ _ _ (by decide)]
      exact lookupA_setK_self _ _ _
    · intro k hk1 hk2
      rw [lookupA_removeK_ne _ _ _ hk1, lookupA_setK_ne _ _ _ _ hk2]

/-- Witness for C2 at a bag holding only a one-entry `Change` mapping. -/
theorem c2_prop_rewriting_witness :
    lookupA [(LKey.str "Change",
        LVal.table [(LKey.str "Text", LVal.fnRef 5)])] (LKey.str "Change") =
      some (LVal.table [(LKey.str "Text", LVal.fnRef 5)]) ∧
    (∃ qs, rewriteProps [(LKey.str "Change",
        LVal.table [(LKey.str "Text", LVal.fnRef 5)])] = .ok qs ∧
      lookupA qs (LKey.str "Change") = none ∧
      lookupA qs (LKey.chg (LKey.str "Text")) = some (LVal.fnRef 5) ∧
      (∀ k, k ≠ LKey.str "Change" → k ≠ LKey.chg (LKey.str "Text") →
        lookupA qs k = lookupA [(LKey.str "Change",
          LVal.table [(LKey.str "Text", LVal.fnRef 5)])] k)) :=
  ⟨rfl, c2_prop_rewriting.1 _ _ rfl rfl rfl⟩

/-- C5 counterexample: an entry under a key other than
`Change`/`Event`/`Tag` — here the change-signal key for "Text" — is
overwritten by the rewriting when the `Change` mapping targets it, so the
rewriting does modify entries outside the three convenience keys. -/
theorem c5_counterexample :
    rewriteProps [(LKey.chg (LKey.str "Text"), LVal.fnRef 1),
        (LKey.str "Change", LVal.table [(LKey.str "Text", LVal.fnRef 2)])] =
      .ok [(LKey.chg (LKey.str "Text"), LVal.fnRef 2)] ∧
    lookupA [(LKey.chg (LKey.str "Text"), LVal.fnRef 1),
        (LKey.str "Change", LVal.table [(LKey.str "Text", LVal.fnRef 2)])]
      (LKey.chg (LKey.str "Text")) = some (LVal.fnRef 1) ∧
    lookupA [(LKey.chg (LKey.str "Text"), LVal.fnRef 2)]
      (LKey.chg (LKey.str "Text")) = some (LVal.fnRef 2) ∧
    (some (LVal.fnRef 1) : Option LVal) ≠ some (LVal.fnRef 2) :=
  ⟨rfl, rfl, rfl, by simp⟩

/-- C5 amended: the identity law holds as stated — a bag containing none of
`Change`, `Event`, `Tag` reaches the delegate unmodified — and entries under
keys that are neither the three convenience keys nor runtime signal keys are
never modified or removed; an entry under a signal key targeted by a
convenience mapping may be overwritten, as the counterexample shows. -/
theorem c5_amended_identity :
    (∀ ps, lookupA ps (.str "Change") = none →
      lookupA ps (.str "Event") = none → lookupA ps (.str "Tag") = none →
      rewriteProps ps = .ok ps ∧
      ∀ s ch, createElement (.str s) (some ps) ch =
        .ok ⟨.str (resolveTag s), some ps, ch⟩) ∧
    (∀ ps qs k, rewriteProps ps = .ok qs → isSignalKey k = false →
      k ≠ .str "Change" → k ≠ .str "Event" → k ≠ .str "Tag" →
      lookupA qs k = lookupA ps k) := by
  constructor
  · intro ps hC hE hT
    have h1 := applyChange_skip ps (Or.inl hC)
    have h2 := applyEvent_skip ps (Or.inl hE)
    have h3 := applyTag_skip ps (Or.inl hT)
    have hrw : rewriteProps ps = .ok ps := by
      have h4 := rewriteProps_eq ps ps ps h1 h2
      rwa [h3] at h4
    refine ⟨hrw, ?_⟩
    intro s ch
    simp only [createElement, hrw]
  · intro ps qs k hrw hsig h1 h2 h3
    obtain ⟨q1, q2, hc, he, rfl⟩ := rewriteProps_ok_inv ps qs hrw
    rw [applyTag_preserve q2 k
        (fun hk => by subst hk; simp [isSignalKey] at hsig) h3,
      applyEvent_preserve q1 q2 k he
        (fun e hk => by subst hk; simp [isSignalKey] at hsig) h2,
      applyChange_preserve ps q1 k hc
        (fun e hk => by subst hk; simp [isSignalKey] at hsig) h1]

/-- Witness for C5 amended: a bag with an ordinary prop and no convenience
keys is passed through unchanged. -/
theorem c5_amended_identity_witness :
    rewriteProps [(LKey.str "Text", LVal.str "hi")] =
      .ok [(LKey.str "Text", LVal.str "hi")] :=
  ((c5_amended_identity).1 [(LKey.str "Text", LVal.str "hi")]
    rfl rfl rfl).1

/-- C6: applying the rewriting to an already-rewritten bag is a no-op —
while on the original bag the convenience keys are consumed, not preserved,
as the second and third conjuncts show on a concrete `Change` bag. -/
theorem c6_second_rewrite_noop :
    (∀ ps qs, rewriteProps ps = .ok qs → rewriteProps qs = .ok qs) ∧
    rewriteProps [(LKey.str "Change",
        LVal.table [(LKey.str "Text", LVal.fnRef 3)])] =
      .ok [(LKey.chg (LKey.str "Text"), LVal.fnRef 3)] ∧
    lookupA [(LKey.chg (LKey.str "Text"), LVal.fnRef 3)]
      (LKey.str "Change") = none := by
  refine ⟨?_, rfl, rfl⟩
  intro ps qs hrw
  obtain ⟨q1, q2, hc, he, rfl⟩ := rewriteProps_ok_inv ps qs hrw
  have fC : falsyOpt (lookupA (applyTag q2) (.str "Change")) := by
    rw [applyTag_preserve q2 _ (by decide) (by decide),
      applyEvent_preserve q1 q2 _ he
        (fun e hk => LKey.noConfusion hk) (by decide)]
    exact applyChange_ok_falsy ps q1 hc
  have fE : falsyOpt (lookupA (applyTag q2) (.str "Event")) := by
    rw [applyTag_preserve q2 _ (by decide) (by decide)]
    exact applyEvent_ok_falsy q1 q2 he
  have fT : falsyOpt (lookupA (applyTag q2) (.str "Tag")) :=
    applyTag_falsy q2
  have s1 := applyChange_skip _ fC
  have s2 := applyEvent_skip _ fE
  have s3 := applyTag_skip _ fT
  have h4 := rewriteProps_eq (applyTag q2) (applyTag q2) (applyTag q2) s1 s2
  rwa [s3] at h4

/-- Witness for C6: the second rewriting pass on the already-rewritten
`Change` bag leaves it unchanged. -/
theorem c6_second_rewrite_noop_witness :
    rewriteProps [(LKey.chg (LKey.str "Text"), LVal.fnRef 3)] =
      .ok [(LKey.chg (LKey.str "Text"), LVal.fnRef 3)] :=
  c6_second_rewrite_noop.1
    [(LKey.str "Change", LVal.table [(LKey.str "Text", LVal.fnRef 3)])]
    [(LKey.chg (LKey.str "Text"), LVal.fnRef 3)] rfl

/-- C7 counterexample: the adapter has a failure mode of its own.  With a
truthy non-table `Change` entry the iteration `for key, value in
props.Change do` raises inside the adapter before any delegation, so an
error surfaces that the delegate (which by definition never raises) did not
produce. -/
theorem c7_counterexample :
    runAdapter okDelegate (.str "frame")
      (some [(LKey.str "Change", LVal.num 5)]) [] =
      .error .iterNonTable := rfl

/-- C7 amended: whenever the `Change` and `Event` entries of the bag, if
present and truthy, are tables — in particular for every bag with arbitrary
keys inside its `Change`/`Event`/`Tag` mappings — the adapter raises no
error of its own: the call's outcome is exactly the delegate's outcome on
the rewritten call, errors propagating unchanged. -/
theorem c7_amended_no_own_failure
    (delegate : DelegateCall → Except LErr LVal) (c : ElementType)
    (popt : Option Props) (ch : List LVal) (h : WFopt popt) :
    ∃ call, createElement c popt ch = .ok call ∧
      runAdapter delegate c popt ch = delegate call := by
  cases c with
  | compRef n => exact ⟨⟨.compRef n, popt, ch⟩, rfl, rfl⟩
  | str s =>
    cases popt with
    | none => exact ⟨⟨.str (resolveTag s), none, ch⟩, rfl, rfl⟩
    | some ps =>
      obtain ⟨hC, hE⟩ := h
      obtain ⟨q1, h1⟩ := applyChange_ok_of_WF ps hC
      have hE1 : lookupA q1 (.str "Event") = lookupA ps (.str "Event") :=
        applyChange_preserve ps q1 _ h1
          (fun e hk => LKey.noConfusion hk) (by decide)
      obtain ⟨q2, h2⟩ := applyEvent_ok_of_WF q1 (by rw [hE1]; exact hE)
      have hrw := rewriteProps_eq ps q1 q2 h1 h2
      refine ⟨⟨.str (resolveTag s), some (applyTag q2), ch⟩, ?_, ?_⟩
      · simp only [createElement, hrw]
      · simp only [runAdapter, createElement, hrw]

/-- Witness for C7 amended at a well-formed bag with a table `Change`. -/
theorem c7_amended_witness :
    WFopt (some [(LKey.str "Change",
      LVal.table [(LKey.str "Text", LVal.fnRef 4)])]) ∧
    (∃ call, createElement (.str "part")
        (some [(LKey.str "Change",
          LVal.table [(LKey.str "Text", LVal.fnRef 4)])]) [] = .ok call ∧
      runAdapter okDelegate (.str "part")
        (some [(LKey.str "Change",
          LVal.table [(LKey.str "Text", LVal.fnRef 4)])]) [] =
        okDelegate call) :=
  ⟨⟨trivial, trivial⟩,
    c7_amended_no_own_failure okDelegate (.str "part")
      (some [(LKey.str "Change",
        LVal.table [(LKey.str "Text", LVal.fnRef 4)])]) []
      ⟨trivial, trivial⟩⟩

end RbxtsReact
